import Mathlib

set_option maxRecDepth 8000

/- Verification of the Simpleye recording-and-playback pipeline
   (src/backend/app/cameras): the live-preview MJPEG stream generator,
   the retention janitor, the recorder supervisor, the HLS playlist
   stitcher and the clip extractor.

   Conventions of the shallow embedding:
   * wall-clock times and durations (Python floats from time.time and
     datetime.timestamp) are modelled as rational numbers of seconds;
   * Python int() truncation of a float is modelled by pyInt;
   * fallible parses (try/except around float()/int()/datetime()) are
     modelled as Option values: none is the except branch;
   * byte strings are modelled as Lean strings. -/

namespace Simpleye

namespace Mjpeg

/- Model of mjpeg_generator (src/backend/app/cameras/utils.py, lines
   22-74).  One loop iteration of the generator is a step of a state
   machine.  The input of a step is the current time together with the
   outcome of cap.read / cv2.imencode on that iteration; its output is
   the chunk yielded to the HTTP response (if any), or the attempt to
   release and reopen the capture session. -/

structure Params where
  fps : ℚ
  jpegQuality : ℤ
  idleReconnect : ℚ
  heartbeatInterval : ℚ
deriving DecidableEq

/- frame_interval = 1.0 / max(1.0, float(fps)) -/
def frameInterval (p : Params) : ℚ := 1 / max 1 p.fps

/- last = time of the last read attempt, last_send = time of the last
   yielded chunk; both are initialised to the time the capture opened. -/
structure MState where
  last : ℚ
  lastSend : ℚ
deriving DecidableEq

/- Outcome of one cap.read() (and, if a frame was returned, of the
   subsequent cv2.imencode) on a given loop iteration. -/
inductive ReadResult where
  | noFrame
  | encodeFail
  | frame (data : String)
deriving DecidableEq

structure Tick where
  now : ℚ
  read : ReadResult
deriving DecidableEq

def boundary : String := "--frame"

/- The chunk yielded on the heartbeat path (line 43):
   boundary + b"\r\nContent-Type: text/plain\r\n\r\n." + b"\r\n" -/
def heartbeatChunk : String :=
  boundary ++ "\r\nContent-Type: text/plain\r\n\r\n." ++ "\r\n"

/- The chunk yielded for an encoded frame (line 67). -/
def frameChunk (data : String) : String :=
  boundary ++ "\r\nContent-Type: image/jpeg\r\nContent-Length: " ++
    toString data.length ++ "\r\n\r\n" ++ data ++ "\r\n"

inductive Event where
  | chunk (s : String)
  | reopenAttempt
  | silent
deriving DecidableEq

/- One iteration of the while-True loop (lines 37-69). -/
def step (p : Params) (s : MState) (t : Tick) : MState × Event :=
  if t.now - s.last < frameInterval p then
    -- rate-limited branch: sleep, then heartbeat check (lines 39-45)
    if t.now - s.lastSend > p.heartbeatInterval then
      ({ s with lastSend := t.now }, Event.chunk heartbeatChunk)
    else
      (s, Event.silent)
  else
    -- read branch (lines 46-69); last = now happens before the read
    let s1 : MState := { s with last := t.now }
    match t.read with
    | ReadResult.noFrame =>
        -- reconnect check (lines 48-58) compares now against last_send
        if t.now - s1.lastSend > p.idleReconnect then
          (s1, Event.reopenAttempt)
        else
          (s1, Event.silent)
    | ReadResult.encodeFail => (s1, Event.silent)
    | ReadResult.frame d =>
        ({ s1 with lastSend := t.now }, Event.chunk (frameChunk d))

def run (p : Params) (s : MState) : List Tick → MState × List Event
  | [] => (s, [])
  | t :: ts =>
      let r1 := step p s t
      let r2 := run p r1.1 ts
      (r2.1, r1.2 :: r2.2)

/- Concrete runs used to settle the StreamProxy claims. -/

def p1 : Params := ⟨1, 75, 10, 1/2⟩

def ticksC1 : List Tick :=
  [⟨1, ReadResult.frame "JPEGDATA"⟩, ⟨9/5, ReadResult.noFrame⟩]

def p8 : Params := ⟨1, 75, 10, 5⟩

def ticksC8 : List Tick :=
  (List.range 21).flatMap
    (fun k => [⟨(k : ℚ) + 1, ReadResult.noFrame⟩, ⟨(k : ℚ) + 1, ReadResult.noFrame⟩])

/-- C1 counterexample: in a run in which one frame has already been
emitted, a rate-limited tick on which no new frame is available and more
than heartbeat_interval seconds have passed since the last send yields
the fixed one-byte text/plain heartbeat chunk, which is not byte-for-byte
the previously emitted encoded frame. -/
theorem mjpeg_heartbeat_not_last_frame :
    (run p1 ⟨0, 0⟩ ticksC1).2 =
      [Event.chunk (frameChunk "JPEGDATA"), Event.chunk heartbeatChunk] ∧
    heartbeatChunk ≠ frameChunk "JPEGDATA" := by
  constructor
  · norm_num [run, step, ticksC1, p1, frameInterval]
  · decide

/-- C1 (amended): whenever a scheduling tick is rate-limited and more than
heartbeat_interval seconds have elapsed since the last send, the generator
yields the fixed heartbeat chunk (boundary, Content-Type text/plain, a
single dot) regardless of any previously emitted frame. -/
theorem mjpeg_heartbeat_chunk_fixed (p : Params) (s : MState) (t : Tick)
    (h1 : t.now - s.last < frameInterval p)
    (h2 : t.now - s.lastSend > p.heartbeatInterval) :
    (step p s t).2 = Event.chunk heartbeatChunk := by
  simp [step, h1, h2]

theorem mjpeg_heartbeat_chunk_fixed_witness :
    ((9 : ℚ)/5 - 1 < frameInterval p1 ∧ (9 : ℚ)/5 - 1 > p1.heartbeatInterval) ∧
    (step p1 ⟨1, 1⟩ ⟨9/5, ReadResult.noFrame⟩).2 = Event.chunk heartbeatChunk :=
  ⟨⟨by norm_num [frameInterval, p1], by norm_num [p1]⟩,
    mjpeg_heartbeat_chunk_fixed p1 ⟨1, 1⟩ ⟨9/5, ReadResult.noFrame⟩
      (by norm_num [frameInterval, p1]) (by norm_num [p1])⟩

/-- C8 counterexample: with heartbeat_interval (5 s) smaller than
idle_reconnect (10 s), a session on which not a single frame ever arrives
over 21 seconds never attempts a reopen: the periodic heartbeats keep
refreshing last_send, and the reconnect test compares now against
last_send rather than against the last frame arrival. -/
theorem mjpeg_no_reopen_despite_idle :
    (∀ t ∈ ticksC8, t.read = ReadResult.noFrame) ∧
    (21 : ℚ) - 0 > p8.idleReconnect ∧
    Event.reopenAttempt ∉ (run p8 ⟨0, 0⟩ ticksC8).2 := by
  refine ⟨?_, by norm_num [p8], ?_⟩
  · intro t ht
    simp only [ticksC8, List.mem_flatMap, List.mem_cons, List.mem_singleton,
      List.not_mem_nil] at ht
    obtain ⟨k, _, h | h | h⟩ := ht
    · rw [h]
    · rw [h]
    · exact absurd h (by simp)
  · norm_num [run, step, ticksC8, p8, frameInterval, List.range_succ]
    decide

/-- C8 (amended): on a tick that reaches the read branch and whose read
fails, a reopen is attempted exactly when more than idle_reconnect seconds
have elapsed since the last emitted chunk (frame or heartbeat) — not since
the last frame arrival. -/
theorem mjpeg_reopen_on_send_idle (p : Params) (s : MState) (t : Tick)
    (h1 : ¬ t.now - s.last < frameInterval p)
    (h2 : t.read = ReadResult.noFrame) :
    (step p s t).2 = Event.reopenAttempt ↔ t.now - s.lastSend > p.idleReconnect := by
  simp only [step, h2, if_neg h1]
  split <;> simp_all

theorem mjpeg_reopen_on_send_idle_witness :
    (¬ ((11 : ℚ) - 0 < frameInterval p8)) ∧
    ((step p8 ⟨0, 0⟩ ⟨11, ReadResult.noFrame⟩).2 = Event.reopenAttempt ↔
      (11 : ℚ) - 0 > p8.idleReconnect) :=
  ⟨by norm_num [frameInterval, p8],
    mjpeg_reopen_on_send_idle p8 ⟨0, 0⟩ ⟨11, ReadResult.noFrame⟩
      (by norm_num [frameInterval, p8]) rfl⟩

end Mjpeg

namespace Retention

/- Model of RecorderManager._run_retention_cleanup
   (src/backend/app/cameras/recorder.py, lines 209-258).  Wall-clock
   times are rational seconds; timedelta(hours=h) is h * 3600 seconds. -/

/- rh_int = int(rh) if rh is not None else 24, with 24 when int() raises:
   none / some none / some (some k) model the absent, unparseable and
   parsed cases of the retention_hours field. -/
def retentionHoursInt : Option (Option ℤ) → ℤ
  | none => 24
  | some none => 24
  | some (some k) => k

/- A minute bucket of the on-disk tree.  pathTime is
   datetime(int(y), int(m), int(d), int(h), int(mi)) reconstructed from
   the directory path components, none when that raises; mtime is the
   directory's filesystem modification time, used as the fallback. -/
structure Bucket where
  pathTime : Option ℚ
  mtime : ℚ
deriving DecidableEq

def bucketTime (b : Bucket) : ℚ := b.pathTime.getD b.mtime

structure Camera where
  retentionHours : Option (Option ℤ)
  buckets : List Bucket
deriving DecidableEq

/- cutoff = now - timedelta(hours=rh_int) -/
def cutoff (now : ℚ) (rh : Option (Option ℤ)) : ℚ :=
  now - (retentionHoursInt rh : ℚ) * 3600

/- One sweep over one camera: every bucket with dt < cutoff is removed
   (shutil.rmtree), every other bucket is left in place. -/
def sweepCamera (now : ℚ) (c : Camera) : Camera :=
  { c with
    buckets :=
      c.buckets.filter (fun b => !decide (bucketTime b < cutoff now c.retentionHours)) }

def runRetentionCleanup (now : ℚ) (cams : List Camera) : List Camera :=
  cams.map (sweepCamera now)

/-- C3: one janitor sweep, for each camera, keeps a bucket exactly when its
timestamp (path-derived, mtime fallback) is not strictly before
cutoff = now - retention_hours (24 when unset or unparseable); a bucket
timestamped more than retention_hours before now is removed, one
timestamped less than retention_hours before now is retained. -/
theorem retention_sweep_exact (now : ℚ) (cams : List Camera) (c : Camera)
    (hc : c ∈ cams) (b : Bucket) (hb : b ∈ c.buckets) :
    (sweepCamera now c ∈ runRetentionCleanup now cams) ∧
    (b ∈ (sweepCamera now c).buckets ↔
      ¬ bucketTime b < cutoff now c.retentionHours) ∧
    (now - bucketTime b > (retentionHoursInt c.retentionHours : ℚ) * 3600 →
      b ∉ (sweepCamera now c).buckets) ∧
    (now - bucketTime b < (retentionHoursInt c.retentionHours : ℚ) * 3600 →
      b ∈ (sweepCamera now c).buckets) ∧
    retentionHoursInt none = 24 ∧ retentionHoursInt (some none) = 24 := by
  have hmem : b ∈ (sweepCamera now c).buckets ↔
      ¬ bucketTime b < cutoff now c.retentionHours := by
    simp [sweepCamera, List.mem_filter, hb]
  refine ⟨List.mem_map_of_mem _ hc, hmem, ?_, ?_, rfl, rfl⟩
  · intro hold
    rw [hmem]
    simp only [not_not, cutoff]
    linarith
  · intro hyoung
    rw [hmem, cutoff]
    intro hlt
    linarith

theorem retention_sweep_exact_witness :
    (sweepCamera 100000 ⟨some (some 1), [⟨some 0, 5⟩]⟩ ∈
      runRetentionCleanup 100000 [⟨some (some 1), [⟨some 0, 5⟩]⟩]) ∧
    ((⟨some 0, 5⟩ : Bucket) ∈ (sweepCamera 100000 ⟨some (some 1), [⟨some 0, 5⟩]⟩).buckets ↔
      ¬ bucketTime ⟨some 0, 5⟩ < cutoff 100000 (some (some 1))) ∧
    ((100000 : ℚ) - bucketTime ⟨some 0, 5⟩ > (retentionHoursInt (some (some 1)) : ℚ) * 3600 →
      (⟨some 0, 5⟩ : Bucket) ∉ (sweepCamera 100000 ⟨some (some 1), [⟨some 0, 5⟩]⟩).buckets) ∧
    ((100000 : ℚ) - bucketTime ⟨some 0, 5⟩ < (retentionHoursInt (some (some 1)) : ℚ) * 3600 →
      (⟨some 0, 5⟩ : Bucket) ∈ (sweepCamera 100000 ⟨some (some 1), [⟨some 0, 5⟩]⟩).buckets) ∧
    retentionHoursInt none = 24 ∧ retentionHoursInt (some none) = 24 :=
  retention_sweep_exact 100000 [⟨some (some 1), [⟨some 0, 5⟩]⟩]
    ⟨some (some 1), [⟨some 0, 5⟩]⟩ (by simp) ⟨some 0, 5⟩ (by simp)

end Retention

namespace Supervisor

/- Model of RecorderManager._supervise (recorder.py, lines 135-198):
   one reconciliation pass over the camera configuration list against the
   worker table self._threads. -/

structure CameraDoc where
  camId : String                 -- str(c.get('_id'))
  enabled : Bool                 -- bool(c.get('enabled', True))
  rtspUrl : String               -- (c.get('rtsp_url') or '').strip()
  recordingMode : Option String  -- c.get('recording_mode')
deriving DecidableEq

/- Python str.lower(), characterwise (ASCII-faithful). -/
def pyLower (s : String) : String := ⟨s.data.map Char.toLower⟩

/- mode = (c.get('recording_mode') or 'hls').lower()  (line 151) -/
def modeOf (c : CameraDoc) : String :=
  pyLower (if c.recordingMode.getD "" = "" then "hls" else c.recordingMode.getD "")

/- enabled and non-empty rtsp_url (lines 145-148) -/
def isActive (c : CameraDoc) : Bool :=
  c.enabled && !(c.rtspUrl == "")

inductive WorkerKind where
  | hlsRecorder
  | cameraRecorder
deriving DecidableEq

/- One recorder thread: its constructor kind, the mode attribute stamped
   on it at start ('hls' at line 173, 'jpeg' at line 182), and whether it
   is alive. -/
structure Worker where
  mode : String
  kind : WorkerKind
  alive : Bool
deriving DecidableEq

/- Lines 161-184: an HLSRecorder when the mode is 'hls', otherwise a
   jpeg CameraRecorder. -/
def newWorker (mode : String) : Worker :=
  if mode == "hls" then ⟨"hls", WorkerKind.hlsRecorder, true⟩
  else ⟨"jpeg", WorkerKind.cameraRecorder, true⟩

/- self._threads, a dict keyed by camera id (insertion ordered). -/
abbrev Threads := List (String × Worker)

def lookupTh (th : Threads) (k : String) : Option Worker :=
  (th.find? (fun e => e.1 == k)).map Prod.snd

/- dict assignment: replace the entry at an existing key, else append. -/
def setTh : Threads → String → Worker → Threads
  | [], k, w => [(k, w)]
  | e :: es, k, w => if e.1 == k then (k, w) :: es else e :: setTh es k w

structure EnsureResult where
  threads : Threads
  started : List String
  stopped : List String
deriving DecidableEq

/- Lines 152-184: keep a live worker whose mode attribute matches the
   configured mode, otherwise signal the existing worker (if any) to stop
   and start a replacement. -/
def ensureWorker (th : Threads) (c : CameraDoc) : EnsureResult :=
  let mode := modeOf c
  match lookupTh th c.camId with
  | some w =>
      if w.alive && w.mode == mode then ⟨th, [], []⟩
      else ⟨setTh th c.camId (newWorker mode), [c.camId], [c.camId]⟩
  | none => ⟨setTh th c.camId (newWorker mode), [c.camId], []⟩

structure PassState where
  threads : Threads
  activeIds : List String
  started : List String
  stopped : List String
deriving DecidableEq

/- The per-camera half of one reconciliation pass (lines 143-184). -/
def camPhase (th : Threads) : List CameraDoc → PassState
  | [] => ⟨th, [], [], []⟩
  | c :: cs =>
      if isActive c then
        let r := ensureWorker th c
        let rest := camPhase r.threads cs
        ⟨rest.threads, c.camId :: rest.activeIds,
          r.started ++ rest.started, r.stopped ++ rest.stopped⟩
      else
        camPhase th cs

def keepEntry (active : List String) (e : String × Worker) : Bool :=
  decide (e.1 ∈ active) && e.2.alive

/- The cleanup half (lines 185-193): stop and discard every thread whose
   camera is no longer active or which is no longer alive. -/
def cleanupPhase (th : Threads) (active : List String) : Threads × List String :=
  (th.filter (keepEntry active),
   (th.filter (fun e => !keepEntry active e)).map Prod.fst)

def supervisePass (th : Threads) (cams : List CameraDoc) : PassState :=
  let p := camPhase th cams
  let cl := cleanupPhase p.threads p.activeIds
  ⟨cl.1, p.activeIds, p.started, p.stopped ++ cl.2⟩

theorem lookupTh_cons (e : String × Worker) (th : Threads) (k : String) :
    lookupTh (e :: th) k = if e.1 == k then some e.2 else lookupTh th k := by
  by_cases h : e.1 == k <;> simp [lookupTh, List.find?_cons, h]

theorem lookupTh_setTh_self (th : Threads) (k : String) (w : Worker) :
    lookupTh (setTh th k w) k = some w := by
  induction th with
  | nil => simp [setTh, lookupTh]
  | cons e es ih =>
      by_cases h : e.1 == k
      · simp [setTh, h, lookupTh_cons]
      · simp [setTh, h, lookupTh_cons, ih]

theorem lookupTh_setTh_ne (th : Threads) (k j : String) (w : Worker) (h : j ≠ k) :
    lookupTh (setTh th k w) j = lookupTh th j := by
  have hkj : (k == j) = false := by simpa using fun he => h he.symm
  induction th with
  | nil => simp [setTh, lookupTh_cons, hkj, lookupTh]
  | cons e es ih =>
      by_cases he : e.1 == k
      · have hej : (e.1 == j) = false := by
          have : e.1 = k := by simpa using he
          simpa [this] using fun hh => h hh.symm
        simp [setTh, he, lookupTh_cons, hkj, hej]
      · simp [setTh, he, lookupTh_cons, ih]

theorem newWorker_spec (m : String) (hm : m = "hls" ∨ m = "jpeg") :
    (newWorker m).alive = true ∧ (newWorker m).mode = m := by
  rcases hm with h | h <;> simp [newWorker, h]

theorem ensureWorker_lookup_self (th : Threads) (c : CameraDoc)
    (hm : modeOf c = "hls" ∨ modeOf c = "jpeg") :
    ∃ w, lookupTh (ensureWorker th c).threads c.camId = some w ∧
      w.alive = true ∧ w.mode = modeOf c := by
  obtain ⟨ha, hmode⟩ := newWorker_spec (modeOf c) hm
  unfold ensureWorker
  cases hl : lookupTh th c.camId with
  | none =>
      exact ⟨newWorker (modeOf c), by simp [lookupTh_setTh_self], ha, hmode⟩
  | some w =>
      by_cases hg : w.alive && w.mode == modeOf c
      · refine ⟨w, by simp [hg, hl], ?_, ?_⟩
        · exact (Bool.and_eq_true _ _ |>.mp hg).1
        · simpa using (Bool.and_eq_true _ _ |>.mp hg).2
      · exact ⟨newWorker (modeOf c), by simp [hg, lookupTh_setTh_self], ha, hmode⟩

theorem ensureWorker_lookup_ne (th : Threads) (c : CameraDoc) (j : String)
    (h : j ≠ c.camId) :
    lookupTh (ensureWorker th c).threads j = lookupTh th j := by
  unfold ensureWorker
  cases hl : lookupTh th c.camId with
  | none => simpa using lookupTh_setTh_ne th c.camId j _ h
  | some w =>
      by_cases hg : w.alive && w.mode == modeOf c
      · simp [hg]
      · simpa [hg] using lookupTh_setTh_ne th c.camId j _ h

theorem camPhase_activeIds (th : Threads) (cams : List CameraDoc) :
    (camPhase th cams).activeIds = (cams.filter isActive).map (fun c => c.camId) := by
  induction cams generalizing th with
  | nil => rfl
  | cons c cs ih =>
      by_cases h : isActive c <;> simp [camPhase, h, ih]

theorem camPhase_lookup_ne (th : Threads) (cams : List CameraDoc) (j : String)
    (h : j ∉ (cams.filter isActive).map (fun c => c.camId)) :
    lookupTh (camPhase th cams).threads j = lookupTh th j := by
  induction cams generalizing th with
  | nil => rfl
  | cons c cs ih =>
      by_cases hc : isActive c
      · have hj1 : j ≠ c.camId := by
          intro he
          exact h (by simp [hc, he])
        have hj2 : j ∉ (cs.filter isActive).map (fun c => c.camId) := by
          intro he
          exact h (by simp [hc, he])
        simp only [camPhase, if_pos hc]
        rw [ih _ hj2, ensureWorker_lookup_ne th c j hj1]
      · have hj2 : j ∉ (cs.filter isActive).map (fun c => c.camId) := by
          intro he
          exact h (by simp [hc, he])
        simp only [camPhase, if_neg hc]
        exact ih th hj2

theorem camPhase_lookup_active (th : Threads) (cams : List CameraDoc)
    (hids : ((cams.filter isActive).map (fun c => c.camId)).Nodup)
    (hmodes : ∀ c ∈ cams, isActive c = true → modeOf c = "hls" ∨ modeOf c = "jpeg") :
    ∀ c ∈ cams, isActive c = true →
      ∃ w, lookupTh (camPhase th cams).threads c.camId = some w ∧
        w.alive = true ∧ w.mode = modeOf c := by
  induction cams generalizing th with
  | nil => intro c hc; simp at hc
  | cons c0 cs ih =>
      intro c hc hact
      by_cases h0 : isActive c0
      · have hfc : (c0 :: cs).filter isActive = c0 :: cs.filter isActive := by
          simp [List.filter_cons, h0]
        have hids2 := hids
        rw [hfc, List.map_cons, List.nodup_cons] at hids2
        obtain ⟨hids0, hidscs⟩ := hids2
        simp only [camPhase, if_pos h0]
        rcases List.mem_cons.mp hc with rfl | hcs
        · rw [camPhase_lookup_ne _ cs c.camId hids0]
          exact ensureWorker_lookup_self th c (hmodes c (by simp) hact)
        · exact ih _ hidscs (fun d hd ha => hmodes d (by simp [hd]) ha) c hcs hact
      · have hcne : c ∈ cs := by
          rcases List.mem_cons.mp hc with rfl | hcs
          · exact absurd hact (by simpa using h0)
          · exact hcs
        have hidscs : ((cs.filter isActive).map (fun c => c.camId)).Nodup := by
          simpa [h0] using hids
        simp only [camPhase, if_neg h0]
        exact ih _ hidscs (fun d hd ha => hmodes d (by simp [hd]) ha) c hcne hact

theorem ensureWorker_noop (th : Threads) (c : CameraDoc) (w : Worker)
    (hl : lookupTh th c.camId = some w) (ha : w.alive = true)
    (hmm : w.mode = modeOf c) :
    ensureWorker th c = ⟨th, [], []⟩ := by
  simp [ensureWorker, hl, ha, hmm]

theorem camPhase_noop (th : Threads) (cams : List CameraDoc)
    (h : ∀ c ∈ cams, isActive c = true →
      ∃ w, lookupTh th c.camId = some w ∧ w.alive = true ∧ w.mode = modeOf c) :
    camPhase th cams = ⟨th, (cams.filter isActive).map (fun c => c.camId), [], []⟩ := by
  induction cams with
  | nil => rfl
  | cons c cs ih =>
      by_cases hc : isActive c
      · obtain ⟨w, hl, ha, hm⟩ := h c (by simp) hc
        have hen := ensureWorker_noop th c w hl ha hm
        simp only [camPhase, if_pos hc, hen]
        rw [ih (fun d hd hda => h d (by simp [hd]) hda)]
        simp [hc]
      · simp only [camPhase, if_neg hc]
        rw [ih (fun d hd hda => h d (by simp [hd]) hda)]
        simp [hc]

theorem lookupTh_filter_some (th : Threads) (p : String × Worker → Bool)
    (k : String) (w : Worker) (hl : lookupTh th k = some w)
    (hp : p (k, w) = true) :
    lookupTh (th.filter p) k = some w := by
  induction th with
  | nil => simp [lookupTh] at hl
  | cons e es ih =>
      by_cases he : e.1 == k
      · have hek : e.1 = k := by simpa using he
        have hew : e.2 = w := by
          rw [lookupTh_cons, if_pos he] at hl
          simpa using hl
        have hpe : p e = true := by
          have : e = (k, w) := by
            cases e
            simp only at hek hew
            rw [hek, hew]
          rw [this]; exact hp
        simp [List.filter_cons, hpe, lookupTh_cons, he, hew]
      · rw [lookupTh_cons, if_neg (by simpa using he)] at hl
        by_cases hpe : p e = true
        · simp [List.filter_cons, hpe, lookupTh_cons, he, ih hl]
        · simp [List.filter_cons, hpe, ih hl]

theorem cleanupPhase_all_kept (th : Threads) (active : List String)
    (h : ∀ e ∈ th, keepEntry active e = true) :
    cleanupPhase th active = (th, []) := by
  unfold cleanupPhase
  have h1 : th.filter (keepEntry active) = th := List.filter_eq_self.mpr h
  have h2 : th.filter (fun e => !keepEntry active e) = [] := by
    rw [List.filter_eq_nil_iff]
    intro e he
    simp [h e he]
  rw [h1, h2]
  rfl

/-- C4: supervisor reconciliation is idempotent.  For any worker table and
any configuration list with distinct active camera ids whose recording
modes normalise to 'hls' or 'jpeg' (the only values the camera registry
stores), the pass after a completed pass — all freshly started workers
alive — starts no worker and stops no worker. -/
theorem supervise_idempotent (th : Threads) (cams : List CameraDoc)
    (hids : ((cams.filter isActive).map (fun c => c.camId)).Nodup)
    (hmodes : ∀ c ∈ cams, isActive c = true →
      modeOf c = "hls" ∨ modeOf c = "jpeg") :
    (supervisePass (supervisePass th cams).threads cams).started = [] ∧
    (supervisePass (supervisePass th cams).threads cams).stopped = [] := by
  have hact := camPhase_activeIds th cams
  have hth1 : (supervisePass th cams).threads =
      (camPhase th cams).threads.filter (keepEntry (camPhase th cams).activeIds) := rfl
  set th2 := (camPhase th cams).threads.filter (keepEntry (camPhase th cams).activeIds)
    with hth2
  have hgood : ∀ c ∈ cams, isActive c = true →
      ∃ w, lookupTh th2 c.camId = some w ∧ w.alive = true ∧ w.mode = modeOf c := by
    intro c hc ha
    obtain ⟨w, hl, hal, hm⟩ := camPhase_lookup_active th cams hids hmodes c hc ha
    refine ⟨w, ?_, hal, hm⟩
    apply lookupTh_filter_some _ _ _ _ hl
    have hmem : c.camId ∈ (camPhase th cams).activeIds := by
      rw [hact]
      exact List.mem_map_of_mem _ (List.mem_filter.mpr ⟨hc, ha⟩)
    simp [keepEntry, hmem, hal]
  have hnoop := camPhase_noop th2 cams hgood
  have hkeep2 : ∀ e ∈ th2, keepEntry (camPhase th2 cams).activeIds e = true := by
    intro e he
    have := List.of_mem_filter he
    rwa [hnoop, ← hact]
  have hclean := cleanupPhase_all_kept th2 (camPhase th2 cams).activeIds hkeep2
  constructor
  · show (supervisePass th2 cams).started = []
    simp [supervisePass, hnoop]
  · show (supervisePass th2 cams).stopped = []
    simp only [supervisePass, hnoop]
    rw [hnoop] at hclean
    simp only at hclean
    simp [hclean]

theorem supervise_idempotent_witness :
    ((([⟨"a", true, "rtsp://x", some "hls"⟩] : List CameraDoc).filter
        isActive).map (fun c => c.camId)).Nodup ∧
    ((supervisePass
        (supervisePass [] [⟨"a", true, "rtsp://x", some "hls"⟩]).threads
        [⟨"a", true, "rtsp://x", some "hls"⟩]).started = [] ∧
      (supervisePass
        (supervisePass [] [⟨"a", true, "rtsp://x", some "hls"⟩]).threads
        [⟨"a", true, "rtsp://x", some "hls"⟩]).stopped = []) :=
  ⟨by decide,
    supervise_idempotent [] [⟨"a", true, "rtsp://x", some "hls"⟩] (by decide)
      (by intro c hc ha; left; rw [List.mem_singleton] at hc; rw [hc]; decide)⟩

/-- C10: an enabled camera with a non-empty source URL and an absent or
empty recording_mode field is treated as mode 'hls', and (when it has no
worker yet) the pass starts an HLSRecorder worker for it, not a jpeg
CameraRecorder. -/
theorem supervisor_default_mode_hls (th : Threads) (c : CameraDoc)
    (h1 : c.enabled = true) (h2 : c.rtspUrl ≠ "")
    (h3 : c.recordingMode = none ∨ c.recordingMode = some "")
    (h4 : lookupTh th c.camId = none) :
    isActive c = true ∧
    modeOf c = "hls" ∧
    (ensureWorker th c).started = [c.camId] ∧
    lookupTh (ensureWorker th c).threads c.camId =
      some ⟨"hls", WorkerKind.hlsRecorder, true⟩ := by
  have hm : modeOf c = "hls" := by
    rcases h3 with h | h <;> simp [modeOf, h] <;> decide
  refine ⟨by simp [isActive, h1, h2], hm, ?_, ?_⟩
  · simp [ensureWorker, h4]
  · simp only [ensureWorker, h4, hm]
    rw [lookupTh_setTh_self]
    decide

theorem supervisor_default_mode_hls_witness :
    isActive ⟨"cam1", true, "rtsp://u", none⟩ = true ∧
    modeOf ⟨"cam1", true, "rtsp://u", none⟩ = "hls" ∧
    (ensureWorker [] ⟨"cam1", true, "rtsp://u", none⟩).started = ["cam1"] ∧
    lookupTh (ensureWorker [] ⟨"cam1", true, "rtsp://u", none⟩).threads "cam1" =
      some ⟨"hls", WorkerKind.hlsRecorder, true⟩ :=
  supervisor_default_mode_hls [] ⟨"cam1", true, "rtsp://u", none⟩ rfl
    (by decide) (Or.inl rfl) rfl

end Supervisor

namespace Clips

/- Model of the clip extractor: _collect_segments_for_window (routes.py,
   lines 482-547, overlap-filter part), api_create_clip (lines 592-695)
   and api_update_clip (lines 775-817). -/

/- Python int() truncation (toward zero) of a float. -/
def pyInt (q : ℚ) : ℤ := if 0 ≤ q then ⌊q⌋ else ⌈q⌉

/- Python str.strip(): drop whitespace from both ends. -/
def pyStrip (s : String) : String :=
  ⟨((s.data.dropWhile Char.isWhitespace).reverse.dropWhile Char.isWhitespace).reverse⟩

/- One parsed HLS segment: absolute start in milliseconds (from its
   EXT-X-PROGRAM-DATE-TIME tag) and duration in seconds (EXTINF, 0.0
   when missing). -/
structure Segment where
  path : String
  startMs : ℤ
  durS : ℚ
deriving DecidableEq

/- Lines 534-547 of _collect_segments_for_window: sort the parsed
   segments by absolute start (Python sort is stable), then keep those
   overlapping [start, end) measured in integer milliseconds. -/
def collectSegments (segs : List Segment) (startT endT : ℚ) : List Segment :=
  if segs.isEmpty then []
  else
    let sorted := segs.insertionSort (fun a b => a.startMs ≤ b.startMs)
    let winStart := pyInt (startT * 1000)
    let winEnd := pyInt (endT * 1000)
    sorted.filter
      (fun s => !(decide (s.startMs + pyInt (s.durS * 1000) ≤ winStart) ||
                  decide (s.startMs ≥ winEnd)))

/- Lines 617-620: duration cap, truncating end to start + 30 minutes. -/
def clipCapEnd (startT endT : ℚ) : ℚ :=
  if endT - startT > 1800 then startT + 1800 else endT

/- Line 628: offset_in_first = max(0.0, (win_start_ms - first.start_ms)/1000.0). -/
def clipOffsetInFirst (startT : ℚ) (first : Segment) : ℚ :=
  max 0 (((pyInt (startT * 1000) : ℚ) - (first.startMs : ℚ)) / 1000)

/- Line 629: total_duration = max(0.1, end - start) on the capped end. -/
def clipTotalDuration (startT endC : ℚ) : ℚ :=
  max (1/10) (endC - startT)

/- The single ffmpeg pass (lines 644-652): the ordered concat list of
   segment files, -ss trim offset and -t output duration. -/
structure FfmpegCut where
  files : List String
  ss : ℚ
  t : ℚ
deriving DecidableEq

/- The cut api_create_clip would run for a window: none when no segment
   overlaps it (the 404 path). -/
def clipCutOf (segs : List Segment) (startT endT : ℚ) : Option FfmpegCut :=
  let endC := clipCapEnd startT endT
  match collectSegments segs startT endC with
  | [] => none
  | first :: rest =>
      some ⟨(first :: rest).map (fun s => s.path),
        clipOffsetInFirst startT first, clipTotalDuration startT endC⟩

/- A clip metadata document (lines 668-678).  Freshly inserted documents
   carry no updated_at key, modelled as updatedAt = none. -/
structure ClipRecord where
  cameraId : String
  startT : ℚ
  endT : ℚ
  durationS : ℚ
  pathRel : String
  sizeBytes : ℕ
  createdAt : ℚ
  createdBy : Option String
  name : Option String
  updatedAt : Option ℚ
deriving DecidableEq

/- Outcome of the external ffmpeg invocation: its exit code, whether the
   output file exists afterwards, its stderr, and the output file size. -/
structure TranscodeResult where
  returncode : ℤ
  outputExists : Bool
  stderr : String
  outputSize : ℕ
deriving DecidableEq

inductive ClipResponse where
  | badRequest (msg : String)           -- HTTP 400
  | notFound (msg : String)             -- HTTP 404
  | transcodeError (msg tail : String)  -- HTTP 500, carrying stderr tail
  | created (doc : ClipRecord)          -- HTTP 201
deriving DecidableEq

/- api_create_clip (lines 592-695) after request parsing, on an
   HLS-mode camera: the window validation and cap, the segment
   collection, the ffmpeg run and, on success only, the insert into the
   clips store. -/
def createClip (camId : String) (store : List ClipRecord) (segs : List Segment)
    (startT endT : ℚ) (nameRaw : Option String) (creator : Option String)
    (nowT : ℚ) (pathRel : String) (runFfmpeg : FfmpegCut → TranscodeResult) :
    ClipResponse × List ClipRecord :=
  let nm := pyStrip (nameRaw.getD "")
  if endT ≤ startT then (ClipResponse.badRequest "end must be after start", store)
  else
    match clipCutOf segs startT endT with
    | none => (ClipResponse.notFound "no segments found in the requested range", store)
    | some cut =>
        let proc := runFfmpeg cut
        if proc.returncode ≠ 0 ∨ proc.outputExists = false then
          (ClipResponse.transcodeError "ffmpeg failed" (proc.stderr.takeRight 1000),
            store)
        else
          let doc : ClipRecord :=
            { cameraId := camId, startT := startT,
              endT := clipCapEnd startT endT, durationS := cut.t,
              pathRel := pathRel, sizeBytes := proc.outputSize,
              createdAt := nowT, createdBy := creator,
              name := if nm = "" then none else some nm,
              updatedAt := none }
          (ClipResponse.created doc, store ++ [doc])

/- api_update_clip (lines 775-817) on the found record, after the
   permission check: $set of the normalised name and of updated_at. -/
def updateClipName (doc : ClipRecord) (bodyName : Option String) (nowT : ℚ) :
    ClipRecord :=
  let nm := pyStrip (bodyName.getD "")
  { doc with name := if nm = "" then none else some nm, updatedAt := some nowT }

theorem pyInt_mono {a b : ℚ} (h : a ≤ b) : pyInt a ≤ pyInt b := by
  unfold pyInt
  by_cases ha : 0 ≤ a
  · rw [if_pos ha, if_pos (le_trans ha h)]
    exact Int.floor_le_floor h
  · by_cases hb : 0 ≤ b
    · rw [if_neg ha, if_pos hb]
      exact le_trans (Int.ceil_le.mpr (by exact_mod_cast le_of_lt (lt_of_not_le ha)))
        (Int.floor_nonneg.mpr hb)
    · rw [if_neg ha, if_neg hb]
      exact Int.ceil_le_ceil h

theorem collect_empty_of_no_overlap (segs : List Segment) (startT endT : ℚ)
    (h : ∀ s ∈ segs, s.startMs + pyInt (s.durS * 1000) ≤ pyInt (startT * 1000) ∨
      s.startMs ≥ pyInt (endT * 1000)) :
    collectSegments segs startT (clipCapEnd startT endT) = [] := by
  unfold collectSegments
  by_cases he : segs.isEmpty
  · rw [if_pos he]
  · rw [if_neg he]
    apply List.filter_eq_nil_iff.mpr
    intro s hs
    have hmem : s ∈ segs := by
      have hperm := List.perm_insertionSort
        (fun a b : Segment => a.startMs ≤ b.startMs) segs
      exact hperm.mem_iff.mp hs
    have hce : clipCapEnd startT endT ≤ endT := by
      unfold clipCapEnd
      split
      · linarith
      · exact le_refl _
    have hwin : pyInt (clipCapEnd startT endT * 1000) ≤ pyInt (endT * 1000) :=
      pyInt_mono (by nlinarith)
    rcases h s hmem with h1 | h2
    · simp [h1]
    · have : s.startMs ≥ pyInt (clipCapEnd startT endT * 1000) :=
        le_trans hwin h2
      simp [this]

/- The spec's worked example: segments starting at 0 s, 2 s and 4 s of
   2 s each (given here unsorted, to exercise the sort). -/
def exSegs : List Segment := [⟨"s1", 2000, 2⟩, ⟨"s0", 0, 2⟩, ⟨"s2", 4000, 2⟩]

/-- C5 (amended): for every window with overlapping segments, the trim
offset into the first kept segment is (winStartMs − firstSegStartMs)/1000
clamped to zero, and the output duration is end − start after the
30-minute cap, additionally clamped below at 0.1 s; on the spec's example
(segments at 0 s, 2 s, 4 s of 2 s each, window [1.0 s, 4.5 s)) the offset
is 1.0 s and the duration 3.5 s. -/
theorem clip_trim_offset_duration :
    (∀ segs startT endT cut, clipCutOf segs startT endT = some cut →
      cut.t = max (1/10) (clipCapEnd startT endT - startT)) ∧
    collectSegments exSegs 1 (clipCapEnd 1 (9/2)) =
      [⟨"s0", 0, 2⟩, ⟨"s1", 2000, 2⟩, ⟨"s2", 4000, 2⟩] ∧
    clipCutOf exSegs 1 (9/2) = some ⟨["s0", "s1", "s2"], 1, 7/2⟩ := by
  refine ⟨?_, ?_, ?_⟩
  · intro segs s e cut h
    simp only [clipCutOf] at h
    rcases hc : collectSegments segs s (clipCapEnd s e) with _ | ⟨f, rest⟩
    · rw [hc] at h
      exact absurd h (by simp)
    · rw [hc] at h
      rw [Option.some.injEq] at h
      rw [← h]
      simp [clipTotalDuration]
  · norm_num [collectSegments, List.insertionSort, List.orderedInsert,
      pyInt, clipCapEnd, exSegs]
  · norm_num [clipCutOf, collectSegments, List.insertionSort,
      List.orderedInsert, pyInt, clipCapEnd, clipOffsetInFirst,
      clipTotalDuration, exSegs]

theorem clip_trim_offset_duration_witness :
    (⟨["s0", "s1", "s2"], 1, 7/2⟩ : FfmpegCut).t =
      max (1/10) (clipCapEnd 1 (9/2) - 1) :=
  clip_trim_offset_duration.1 exSegs 1 (9/2) _ clip_trim_offset_duration.2.2

/-- C5 counterexample: for the window [0 s, 0.05 s) over a segment at
0 s, the computed output duration is the 0.1 s floor, not end − start
(the claim says the duration equals end − start after the 30-minute
cap). -/
theorem clip_duration_floor_counterexample :
    clipCutOf [⟨"s0", 0, 2⟩] 0 (1/20) = some ⟨["s0"], 0, 1/10⟩ ∧
    clipCapEnd 0 (1/20) = 1/20 ∧
    (1/10 : ℚ) ≠ clipCapEnd 0 (1/20) - 0 := by
  refine ⟨?_, by norm_num [clipCapEnd], by norm_num [clipCapEnd]⟩
  norm_num [clipCutOf, collectSegments, List.insertionSort,
    List.orderedInsert, pyInt, clipCapEnd, clipOffsetInFirst,
    clipTotalDuration]

/-- C6: a clip request over a valid window fails with the NoSegmentsFound
rejection when no segment overlaps the window, and with the
TranscodeFailed rejection carrying the tool's stderr tail when the
transcode leaves no output file; in both cases the clip store is returned
unchanged. -/
theorem clip_failure_preserves_store (camId : String) (store : List ClipRecord)
    (segs : List Segment) (startT endT : ℚ) (nameRaw creator : Option String)
    (nowT : ℚ) (pathRel : String) (runFfmpeg : FfmpegCut → TranscodeResult)
    (hw : startT < endT) :
    ((∀ s ∈ segs, s.startMs + pyInt (s.durS * 1000) ≤ pyInt (startT * 1000) ∨
        s.startMs ≥ pyInt (endT * 1000)) →
      createClip camId store segs startT endT nameRaw creator nowT pathRel runFfmpeg =
        (ClipResponse.notFound "no segments found in the requested range", store)) ∧
    (∀ cut, clipCutOf segs startT endT = some cut →
      (runFfmpeg cut).outputExists = false →
      createClip camId store segs startT endT nameRaw creator nowT pathRel runFfmpeg =
        (ClipResponse.transcodeError "ffmpeg failed"
          ((runFfmpeg cut).stderr.takeRight 1000), store)) := by
  have hns : ¬ endT ≤ startT := not_le.mpr hw
  constructor
  · intro hno
    have hcol := collect_empty_of_no_overlap segs startT endT hno
    have hcut : clipCutOf segs startT endT = none := by
      simp [clipCutOf, hcol]
    simp [createClip, hns, hcut]
  · intro cut hcut hout
    simp [createClip, hns, hcut, hout]

def c6run : FfmpegCut → TranscodeResult := fun _ => ⟨0, false, "boom", 0⟩

theorem clip_failure_preserves_store_witness :
    createClip "cam" [] [⟨"s", 5000, 1⟩] 0 1 none none 0 "p" c6run =
      (ClipResponse.notFound "no segments found in the requested range", []) :=
  (clip_failure_preserves_store "cam" [] [⟨"s", 5000, 1⟩] 0 1 none none 0 "p"
    c6run (by norm_num)).1
    (by
      intro s hs
      rw [List.mem_singleton] at hs
      rw [hs]
      right
      norm_num [pyInt])

def c9doc : ClipRecord :=
  ⟨"cam", 0, 10, 10, "clips/a.mp4", 123, 5, some "u1", none, none⟩

/-- C9 counterexample: renaming a stored clip record does not change only
the display-name field — it also sets updated_at, a key that is absent
from the freshly created record, so the set of stored fields changes. -/
theorem update_clip_adds_updated_at :
    c9doc.updatedAt = none ∧
    (updateClipName c9doc (some "newname") 42).updatedAt = some 42 ∧
    updateClipName c9doc (some "newname") 42 ≠
      { c9doc with name := some (pyStrip "newname") } := by
  refine ⟨rfl, rfl, ?_⟩
  intro h
  have h2 := congrArg ClipRecord.updatedAt h
  simp [updateClipName, c9doc] at h2

/-- C9 (amended): a permitted rename changes only the display-name field
and the updated_at timestamp (which it adds when absent); camera id,
start/end, duration, path, size, creator and creation time are all
unchanged. -/
theorem update_clip_changes_only_name_and_updated_at (doc : ClipRecord)
    (bodyName : Option String) (nowT : ℚ) :
    (updateClipName doc bodyName nowT).cameraId = doc.cameraId ∧
    (updateClipName doc bodyName nowT).startT = doc.startT ∧
    (updateClipName doc bodyName nowT).endT = doc.endT ∧
    (updateClipName doc bodyName nowT).durationS = doc.durationS ∧
    (updateClipName doc bodyName nowT).pathRel = doc.pathRel ∧
    (updateClipName doc bodyName nowT).sizeBytes = doc.sizeBytes ∧
    (updateClipName doc bodyName nowT).createdAt = doc.createdAt ∧
    (updateClipName doc bodyName nowT).createdBy = doc.createdBy ∧
    (updateClipName doc bodyName nowT).name =
      (if pyStrip (bodyName.getD "") = "" then none
        else some (pyStrip (bodyName.getD ""))) ∧
    (updateClipName doc bodyName nowT).updatedAt = some nowT :=
  ⟨rfl, rfl, rfl, rfl, rfl, rfl, rfl, rfl, rfl, rfl⟩

end Clips

namespace Stitch

/- Model of api_concat_hls_playlist (routes.py, lines 827-951): the loop
   over per-minute index.m3u8 files and the assembly of the single
   virtual playlist.  Each input manifest is the list of its stripped,
   nonempty lines, classified by the startswith tests of lines 899-923;
   fallible float parses and the PDT string extraction are Options
   (none is the except branch). -/

inductive PlLine where
  | targetDuration (v : Option ℚ)        -- '#EXT-X-TARGETDURATION:' line
  | programDateTime (v : Option String)  -- '#EXT-X-PROGRAM-DATE-TIME:' line
  | extinf (v : Option ℚ)                -- '#EXTINF:' line
  | comment                              -- any other '#' line
  | uri (s : String)                     -- a segment uri line
deriving DecidableEq

/- The emitted playlist, line by line, represented structurally: each
   constructor renders to the corresponding literal text of lines
   883-949.  A seg line additionally records the value of the running
   media_seq counter at the moment it is appended (line 945). -/
inductive OutLine where
  | header                    -- "#EXTM3U"
  | version (n : ℕ)           -- "#EXT-X-VERSION:3"
  | mediaSeq (n : ℕ)          -- "#EXT-X-MEDIA-SEQUENCE:<n>"
  | targetDur (n : ℤ)         -- "#EXT-X-TARGETDURATION:<ceil>"
  | pdt (s : String)          -- "#EXT-X-PROGRAM-DATE-TIME:<s>"
  | disc                      -- "#EXT-X-DISCONTINUITY"
  | extinf (d : ℚ)            -- "#EXTINF:<d formatted .3f>,"
  | seg (n : ℕ) (u : String)  -- the rewritten absolute segment uri
  | endlist                   -- "#EXT-X-ENDLIST"
deriving DecidableEq

/- Python truthiness of the cur_pdt / first_pdt variables: None and the
   empty string are falsy. -/
def truthy : Option String → Bool
  | none => false
  | some s => !(s == "")

/- State shared across all buckets: max_target, media_seq, first_pdt and
   the first flag (lines 884-887). -/
structure GState where
  maxTarget : ℚ
  mediaSeq : ℕ
  firstPdt : Option String
  first : Bool
deriving DecidableEq

/- State reset at each bucket: last_dur, cur_pdt, minute_first
   (lines 892-894). -/
structure BState where
  lastDur : Option ℚ
  curPdt : Option String
  minuteFirst : Bool
deriving DecidableEq

def g0 : GState := ⟨0, 0, none, true⟩
def b0 : BState := ⟨none, none, true⟩

/- abs_uri = f-string of line 943. -/
def segUri (camId rel u : String) : String :=
  "/cameras/" ++ camId ++ "/recordings/" ++ rel ++ "/" ++ u

/- Lines 895-945: processing of one manifest line.  (The first flag is
   cleared only inside the first-branch in the source; clearing it
   unconditionally at a uri line is equivalent since it is already false
   otherwise.) -/
def stepLine (camId rel : String) (g : GState) (b : BState) :
    PlLine → GState × BState × List OutLine
  | PlLine.targetDuration none => (g, b, [])
  | PlLine.targetDuration (some td) =>
      ({ g with maxTarget := if td > g.maxTarget then td else g.maxTarget }, b, [])
  | PlLine.programDateTime none => (g, { b with curPdt := none }, [])
  | PlLine.programDateTime (some s) =>
      ({ g with firstPdt := if g.firstPdt = none then some s else g.firstPdt },
       { b with curPdt := some s }, [])
  | PlLine.extinf none => (g, { b with lastDur := none }, [])
  | PlLine.extinf (some v) =>
      ({ g with maxTarget := if v > g.maxTarget then v else g.maxTarget },
       { b with lastDur := some v }, [])
  | PlLine.comment => (g, b, [])
  | PlLine.uri u =>
      let boundaryOut :=
        if g.first then
          [OutLine.mediaSeq g.mediaSeq] ++
          (if g.maxTarget ≠ 0 then [OutLine.targetDur ⌈g.maxTarget⌉] else []) ++
          (if truthy g.firstPdt then [OutLine.pdt (g.firstPdt.getD "")] else [])
        else if b.minuteFirst then
          OutLine.disc ::
          (if truthy b.curPdt then [OutLine.pdt (b.curPdt.getD "")] else [])
        else []
      ({ g with first := false, mediaSeq := g.mediaSeq + 1 },
       { b with minuteFirst := false },
       boundaryOut ++
         [OutLine.extinf (b.lastDur.getD 2),
          OutLine.seg g.mediaSeq (segUri camId rel u)])

def stepLines (camId rel : String) (g : GState) (b : BState) :
    List PlLine → GState × BState × List OutLine
  | [] => (g, b, [])
  | l :: ls =>
      let r1 := stepLine camId rel g b l
      let r2 := stepLines camId rel r1.1 r1.2.1 ls
      (r2.1, r2.2.1, r1.2.2 ++ r2.2.2)

/- One bucket: per-bucket state starts afresh (lines 888-894). -/
def doBucket (camId : String) (g : GState) (bucket : String × List PlLine) :
    GState × List OutLine :=
  let r := stepLines camId bucket.1 g b0 bucket.2
  (r.1, r.2.2)

def doBuckets (camId : String) (g : GState) :
    List (String × List PlLine) → GState × List OutLine
  | [] => (g, [])
  | bk :: bks =>
      let r1 := doBucket camId g bk
      let r2 := doBuckets camId r1.1 bks
      (r2.1, r1.2 ++ r2.2)

/- The whole endpoint body: fixed head lines (line 883), all buckets in
   chronological order, ENDLIST (line 949). -/
def stitch (camId : String) (buckets : List (String × List PlLine)) :
    List OutLine :=
  [OutLine.header, OutLine.version 3] ++ (doBuckets camId g0 buckets).2 ++
    [OutLine.endlist]

def extinfDur : PlLine → Option ℚ
  | PlLine.extinf (some v) => some v
  | _ => none

/- Spec-side definition: the maximum observed segment duration (EXTINF
   values) across all included buckets, as the spec words it. -/
def maxSegDuration (bs : List (String × List PlLine)) : ℚ :=
  ((bs.flatMap Prod.snd).filterMap extinfDur).foldl
    (fun a v => if v > a then v else a) 0

def isUriLine : PlLine → Bool
  | PlLine.uri _ => true
  | _ => false

def hasUri (ls : List PlLine) : Bool := ls.any isUriLine

def uriCount (ls : List PlLine) : ℕ := ls.countP isUriLine

/- The running max_target update contributed by one non-uri line. -/
def bump (acc : ℚ) : PlLine → ℚ
  | PlLine.targetDuration (some v) => if v > acc then v else acc
  | PlLine.extinf (some v) => if v > acc then v else acc
  | _ => acc

/- The value of max_target accumulated up to (excluding) the first uri
   line of the stream. -/
def runMax (acc : ℚ) : List PlLine → ℚ
  | [] => acc
  | PlLine.uri _ :: _ => acc
  | l :: ls => runMax (bump acc l) ls

def segNumOf : OutLine → Option ℕ
  | OutLine.seg n _ => some n
  | _ => none

/- The media_seq annotations of the emitted segments, in order. -/
def segNums (out : List OutLine) : List ℕ := out.filterMap segNumOf

/- C2 counterexample buckets: the first bucket advertises 2 s segments,
   the second bucket contains a 5 s segment. -/
def exB1 : String × List PlLine :=
  ("r1", [PlLine.targetDuration (some 2), PlLine.extinf (some 2), PlLine.uri "a.ts"])

def exB2 : String × List PlLine :=
  ("r2", [PlLine.extinf (some 5), PlLine.uri "b.ts"])

/-- C2 counterexample: the maximum observed segment duration across both
included buckets is 5 s, but the stitched manifest carries
EXT-X-TARGETDURATION:2 — the value is fixed at the first emitted segment
and ignores the larger duration found in the second bucket. -/
theorem stitch_targetduration_ignores_later_buckets :
    maxSegDuration [exB1, exB2] = 5 ∧
    stitch "cam" [exB1, exB2] =
      [OutLine.header, OutLine.version 3, OutLine.mediaSeq 0,
       OutLine.targetDur 2, OutLine.extinf 2,
       OutLine.seg 0 (segUri "cam" "r1" "a.ts"), OutLine.disc,
       OutLine.extinf 5, OutLine.seg 1 (segUri "cam" "r2" "b.ts"),
       OutLine.endlist] ∧
    OutLine.targetDur ⌈maxSegDuration [exB1, exB2]⌉ ∉ stitch "cam" [exB1, exB2] := by
  have h5 : (⌈(5 : ℚ)⌉ : ℤ) = 5 := by norm_num
  have h2 : (⌈(2 : ℚ)⌉ : ℤ) = 2 := by norm_num
  have hmax : maxSegDuration [exB1, exB2] = 5 := by
    norm_num [maxSegDuration, exB1, exB2, extinfDur, List.filterMap_cons]
  have hst : stitch "cam" [exB1, exB2] =
      [OutLine.header, OutLine.version 3, OutLine.mediaSeq 0,
       OutLine.targetDur 2, OutLine.extinf 2,
       OutLine.seg 0 (segUri "cam" "r1" "a.ts"), OutLine.disc,
       OutLine.extinf 5, OutLine.seg 1 (segUri "cam" "r2" "b.ts"),
       OutLine.endlist] := by
    norm_num [stitch, doBuckets, doBucket, stepLines, stepLine, exB1, exB2,
      g0, b0, truthy, h2]
  refine ⟨hmax, hst, ?_⟩
  rw [hmax, hst, h5]
  simp

theorem stepLine_not_uri (camId rel : String) (g : GState) (b : BState)
    (l : PlLine) (h : isUriLine l = false) :
    (stepLine camId rel g b l).2.2 = [] ∧
    (stepLine camId rel g b l).1.first = g.first ∧
    (stepLine camId rel g b l).1.mediaSeq = g.mediaSeq ∧
    (stepLine camId rel g b l).1.maxTarget = bump g.maxTarget l ∧
    (stepLine camId rel g b l).2.1.minuteFirst = b.minuteFirst := by
  cases l with
  | targetDuration v => cases v <;> simp [stepLine, bump]
  | programDateTime v => cases v <;> simp [stepLine, bump]
  | extinf v => cases v <;> simp [stepLine, bump]
  | comment => simp [stepLine, bump]
  | uri u => simp [isUriLine] at h

theorem stepLine_first_false (camId rel : String) (g : GState) (b : BState)
    (l : PlLine) (hg : g.first = false) :
    (stepLine camId rel g b l).1.first = false := by
  cases l with
  | targetDuration v => cases v <;> simp [stepLine, hg]
  | programDateTime v => cases v <;> simp [stepLine, hg]
  | extinf v => cases v <;> simp [stepLine, hg]
  | comment => simp [stepLine, hg]
  | uri u => simp [stepLine]

theorem stepLine_uri_out_first_false (camId rel : String) (g : GState)
    (b : BState) (u : String) (hg : g.first = false) :
    (stepLine camId rel g b (PlLine.uri u)).2.2 =
      (if b.minuteFirst then
        OutLine.disc ::
          (if truthy b.curPdt then [OutLine.pdt (b.curPdt.getD "")] else [])
       else []) ++
      [OutLine.extinf (b.lastDur.getD 2),
       OutLine.seg g.mediaSeq (segUri camId rel u)] := by
  simp [stepLine, hg]

theorem stepLines_no_targetDur (camId rel : String) :
    ∀ (ls : List PlLine) (g : GState) (b : BState), g.first = false →
      (∀ n, OutLine.targetDur n ∉ (stepLines camId rel g b ls).2.2) ∧
      (stepLines camId rel g b ls).1.first = false := by
  intro ls
  induction ls with
  | nil =>
      intro g b hg
      exact ⟨fun n => by simp [stepLines], by simpa [stepLines] using hg⟩
  | cons l ls ih =>
      intro g b hg
      have hfirst := stepLine_first_false camId rel g b l hg
      obtain ⟨ih1, ih2⟩ := ih (stepLine camId rel g b l).1 (stepLine camId rel g b l).2.1 hfirst
      have hhead : ∀ n, OutLine.targetDur n ∉ (stepLine camId rel g b l).2.2 := by
        intro n
        by_cases hu : isUriLine l
        · cases l with
          | uri u =>
              rw [stepLine_uri_out_first_false camId rel g b u hg]
              by_cases hb : b.minuteFirst <;> by_cases ht : truthy b.curPdt <;>
                simp [hb, ht]
          | targetDuration v => simp [isUriLine] at hu
          | programDateTime v => simp [isUriLine] at hu
          | extinf v => simp [isUriLine] at hu
          | comment => simp [isUriLine] at hu
        · rw [(stepLine_not_uri camId rel g b l (by simpa using hu)).1]
          simp
      refine ⟨fun n => ?_, ih2⟩
      simp only [stepLines, List.mem_append]
      rintro (h | h)
      · exact hhead n h
      · exact ih1 n h

theorem stepLines_first_false_stays (camId rel : String) (ls : List PlLine)
    (g : GState) (b : BState) (hg : g.first = false) :
    (stepLines camId rel g b ls).1.first = false :=
  (stepLines_no_targetDur camId rel ls g b hg).2

theorem stepLines_first_cleared (camId rel : String) :
    ∀ (ls : List PlLine) (g : GState) (b : BState), g.first = true →
      (stepLines camId rel g b ls).1.first = !hasUri ls := by
  intro ls
  induction ls with
  | nil => intro g b hg; simpa [stepLines, hasUri] using hg
  | cons l ls ih =>
      intro g b hg
      by_cases hu : isUriLine l
      · cases l with
        | uri u =>
            have : (stepLine camId rel g b (PlLine.uri u)).1.first = false := by
              simp [stepLine]
            simp only [stepLines]
            rw [stepLines_first_false_stays camId rel ls _ _ this]
            simp [hasUri, isUriLine]
        | targetDuration v => simp [isUriLine] at hu
        | programDateTime v => simp [isUriLine] at hu
        | extinf v => simp [isUriLine] at hu
        | comment => simp [isUriLine] at hu
      · have hfacts := stepLine_not_uri camId rel g b l (by simpa using hu)
        have hfirst : (stepLine camId rel g b l).1.first = true := by
          rw [hfacts.2.1, hg]
        simp only [stepLines]
        rw [ih _ _ hfirst]
        cases l with
        | targetDuration v => simp [hasUri, isUriLine]
        | programDateTime v => simp [hasUri, isUriLine]
        | extinf v => simp [hasUri, isUriLine]
        | comment => simp [hasUri, isUriLine]
        | uri u => simp [isUriLine] at hu

theorem stepLines_targetDur_first (camId rel : String) :
    ∀ (ls : List PlLine) (g : GState) (b : BState), g.first = true → ∀ n,
      (OutLine.targetDur n ∈ (stepLines camId rel g b ls).2.2 ↔
        hasUri ls = true ∧ runMax g.maxTarget ls ≠ 0 ∧
        n = ⌈runMax g.maxTarget ls⌉) := by
  intro ls
  induction ls with
  | nil => intro g b hg n; simp [stepLines, hasUri]
  | cons l ls ih =>
      intro g b hg n
      cases l with
      | uri u =>
          have hfirst : (stepLine camId rel g b (PlLine.uri u)).1.first = false := by
            simp [stepLine]
          have hrest := (stepLines_no_targetDur camId rel ls
            (stepLine camId rel g b (PlLine.uri u)).1
            (stepLine camId rel g b (PlLine.uri u)).2.1 hfirst).1 n
          have hout : (stepLine camId rel g b (PlLine.uri u)).2.2 =
              ([OutLine.mediaSeq g.mediaSeq] ++
                (if g.maxTarget ≠ 0 then [OutLine.targetDur ⌈g.maxTarget⌉] else []) ++
                (if truthy g.firstPdt then [OutLine.pdt (g.firstPdt.getD "")] else [])) ++
              [OutLine.extinf (b.lastDur.getD 2),
               OutLine.seg g.mediaSeq (segUri camId rel u)] := by
            simp [stepLine, hg]
          simp only [stepLines, List.mem_append]
          constructor
          · rintro (h | h)
            · rw [hout] at h
              simp only [List.mem_append, List.mem_singleton, List.mem_cons,
                List.not_mem_nil] at h
              rcases h with ((h | h) | h) | h | h | h
              · exact absurd h (by simp)
              · by_cases hmt : g.maxTarget ≠ 0
                · rw [if_pos hmt] at h
                  simp only [List.mem_singleton] at h
                  rw [OutLine.targetDur.injEq] at h
                  exact ⟨by simp [hasUri, isUriLine], by simpa [runMax] using hmt,
                    by simp [runMax, h]⟩
                · rw [if_neg hmt] at h
                  exact absurd h (by simp)
              · by_cases hp : truthy g.firstPdt
                · rw [if_pos hp] at h
                  exact absurd h (by simp)
                · rw [if_neg hp] at h
                  exact absurd h (by simp)
              · exact absurd h (by simp)
              · exact absurd h (by simp)
              · exact absurd h (by simp)
            · exact absurd h hrest
          · rintro ⟨-, hmt, hn⟩
            left
            rw [hout]
            simp only [runMax] at hmt hn
            simp [if_pos hmt, hn]
      | targetDuration v =>
          have hfacts := stepLine_not_uri camId rel g b (PlLine.targetDuration v)
            (by simp [isUriLine])
          have hfirst : (stepLine camId rel g b (PlLine.targetDuration v)).1.first = true := by
            rw [hfacts.2.1, hg]
          have hih := ih (stepLine camId rel g b (PlLine.targetDuration v)).1
            (stepLine camId rel g b (PlLine.targetDuration v)).2.1 hfirst n
          rw [hfacts.2.2.2.1] at hih
          simp only [stepLines, List.mem_append, hfacts.1, List.not_mem_nil]
          rw [show runMax g.maxTarget (PlLine.targetDuration v :: ls) =
            runMax (bump g.maxTarget (PlLine.targetDuration v)) ls from by
              cases v <;> simp [runMax]]
          simpa [hasUri, isUriLine] using hih
      | programDateTime v =>
          have hfacts := stepLine_not_uri camId rel g b (PlLine.programDateTime v)
            (by simp [isUriLine])
          have hfirst : (stepLine camId rel g b (PlLine.programDateTime v)).1.first = true := by
            rw [hfacts.2.1, hg]
          have hih := ih (stepLine camId rel g b (PlLine.programDateTime v)).1
            (stepLine camId rel g b (PlLine.programDateTime v)).2.1 hfirst n
          rw [hfacts.2.2.2.1] at hih
          simp only [stepLines, List.mem_append, hfacts.1, List.not_mem_nil]
          rw [show runMax g.maxTarget (PlLine.programDateTime v :: ls) =
            runMax (bump g.maxTarget (PlLine.programDateTime v)) ls from by
              cases v <;> simp [runMax]]
          simpa [hasUri, isUriLine] using hih
      | extinf v =>
          have hfacts := stepLine_not_uri camId rel g b (PlLine.extinf v)
            (by simp [isUriLine])
          have hfirst : (stepLine camId rel g b (PlLine.extinf v)).1.first = true := by
            rw [hfacts.2.1, hg]
          have hih := ih (stepLine camId rel g b (PlLine.extinf v)).1
            (stepLine camId rel g b (PlLine.extinf v)).2.1 hfirst n
          rw [hfacts.2.2.2.1] at hih
          simp only [stepLines, List.mem_append, hfacts.1, List.not_mem_nil]
          rw [show runMax g.maxTarget (PlLine.extinf v :: ls) =
            runMax (bump g.maxTarget (PlLine.extinf v)) ls from by
              cases v <;> simp [runMax]]
          simpa [hasUri, isUriLine] using hih
      | comment =>
          have hfacts := stepLine_not_uri camId rel g b PlLine.comment
            (by simp [isUriLine])
          have hfirst : (stepLine camId rel g b PlLine.comment).1.first = true := by
            rw [hfacts.2.1, hg]
          have hih := ih (stepLine camId rel g b PlLine.comment).1
            (stepLine camId rel g b PlLine.comment).2.1 hfirst n
          rw [hfacts.2.2.2.1] at hih
          simp only [stepLines, List.mem_append, hfacts.1, List.not_mem_nil]
          rw [show runMax g.maxTarget (PlLine.comment :: ls) =
            runMax (bump g.maxTarget PlLine.comment) ls from by simp [runMax]]
          simpa [hasUri, isUriLine] using hih

theorem stepLines_no_uri (camId rel : String) :
    ∀ (ls : List PlLine) (g : GState) (b : BState), hasUri ls = false →
      (stepLines camId rel g b ls).2.2 = [] ∧
      (stepLines camId rel g b ls).1.first = g.first ∧
      (stepLines camId rel g b ls).1.mediaSeq = g.mediaSeq ∧
      (stepLines camId rel g b ls).1.maxTarget = ls.foldl bump g.maxTarget := by
  intro ls
  induction ls with
  | nil => intro g b _; exact ⟨rfl, rfl, rfl, rfl⟩
  | cons l ls ih =>
      intro g b hu
      have hlu : isUriLine l = false := by
        by_contra hc
        rw [hasUri, List.any_cons, eq_true_of_ne_false hc] at hu
        simp at hu
      have hlsu : hasUri ls = false := by
        rw [hasUri, List.any_cons, hlu] at hu
        simpa [hasUri] using hu
      have hfacts := stepLine_not_uri camId rel g b l hlu
      obtain ⟨ih1, ih2, ih3, ih4⟩ := ih (stepLine camId rel g b l).1
        (stepLine camId rel g b l).2.1 hlsu
      refine ⟨?_, ?_, ?_, ?_⟩
      · simp only [stepLines, hfacts.1, ih1, List.append_nil]
      · simp only [stepLines]; rw [ih2, hfacts.2.1]
      · simp only [stepLines]; rw [ih3, hfacts.2.2.1]
      · simp only [stepLines]
        rw [ih4, List.foldl_cons, hfacts.2.2.2.1]

theorem hasUri_append (xs ys : List PlLine) :
    hasUri (xs ++ ys) = (hasUri xs || hasUri ys) := by
  simp [hasUri, List.any_append]

theorem runMax_append_of_hasUri (xs ys : List PlLine) (acc : ℚ)
    (h : hasUri xs = true) :
    runMax acc (xs ++ ys) = runMax acc xs := by
  induction xs generalizing acc with
  | nil => simp [hasUri] at h
  | cons l ls ih =>
      cases l with
      | uri u => simp [runMax]
      | targetDuration v =>
          have : hasUri ls = true := by simpa [hasUri, isUriLine] using h
          simp only [List.cons_append, runMax]
          exact ih _ this
      | programDateTime v =>
          have : hasUri ls = true := by simpa [hasUri, isUriLine] using h
          simp only [List.cons_append, runMax]
          exact ih _ this
      | extinf v =>
          have : hasUri ls = true := by simpa [hasUri, isUriLine] using h
          simp only [List.cons_append, runMax]
          exact ih _ this
      | comment =>
          have : hasUri ls = true := by simpa [hasUri, isUriLine] using h
          simp only [List.cons_append, runMax]
          exact ih _ this

theorem runMax_append_of_no_uri (xs ys : List PlLine) (acc : ℚ)
    (h : hasUri xs = false) :
    runMax acc (xs ++ ys) = runMax (xs.foldl bump acc) ys := by
  induction xs generalizing acc with
  | nil => simp
  | cons l ls ih =>
      cases l with
      | uri u => simp [hasUri, isUriLine] at h
      | targetDuration v =>
          have : hasUri ls = false := by simpa [hasUri, isUriLine] using h
          simp only [List.cons_append, runMax, List.foldl_cons]
          exact ih _ this
      | programDateTime v =>
          have : hasUri ls = false := by simpa [hasUri, isUriLine] using h
          simp only [List.cons_append, runMax, List.foldl_cons]
          exact ih _ this
      | extinf v =>
          have : hasUri ls = false := by simpa [hasUri, isUriLine] using h
          simp only [List.cons_append, runMax, List.foldl_cons]
          exact ih _ this
      | comment =>
          have : hasUri ls = false := by simpa [hasUri, isUriLine] using h
          simp only [List.cons_append, runMax, List.foldl_cons]
          exact ih _ this

theorem doBuckets_no_targetDur (camId : String) :
    ∀ (bs : List (String × List PlLine)) (g : GState), g.first = false →
      (∀ n, OutLine.targetDur n ∉ (doBuckets camId g bs).2) ∧
      (doBuckets camId g bs).1.first = false := by
  intro bs
  induction bs with
  | nil => intro g hg; exact ⟨fun n => by simp [doBuckets], by simpa [doBuckets] using hg⟩
  | cons bk bks ih =>
      intro g hg
      obtain ⟨h1, h2⟩ := stepLines_no_targetDur camId bk.1 bk.2 g b0 hg
      obtain ⟨ih1, ih2⟩ := ih (stepLines camId bk.1 g b0 bk.2).1 h2
      refine ⟨fun n => ?_, ih2⟩
      simp only [doBuckets, doBucket, List.mem_append]
      rintro (h | h)
      · exact h1 n h
      · exact ih1 n h

theorem doBuckets_targetDur (camId : String) :
    ∀ (bs : List (String × List PlLine)) (g : GState), g.first = true → ∀ n,
      (OutLine.targetDur n ∈ (doBuckets camId g bs).2 ↔
        hasUri (bs.flatMap Prod.snd) = true ∧
        runMax g.maxTarget (bs.flatMap Prod.snd) ≠ 0 ∧
        n = ⌈runMax g.maxTarget (bs.flatMap Prod.snd)⌉) := by
  intro bs
  induction bs with
  | nil => intro g hg n; simp [doBuckets, hasUri]
  | cons bk bks ih =>
      intro g hg n
      by_cases hu : hasUri bk.2
      · have h3 := stepLines_targetDur_first camId bk.1 bk.2 g b0 hg n
        have hfirst : (stepLines camId bk.1 g b0 bk.2).1.first = false := by
          rw [stepLines_first_cleared camId bk.1 bk.2 g b0 hg, hu]
          rfl
        have hrest := (doBuckets_no_targetDur camId bks
          (stepLines camId bk.1 g b0 bk.2).1 hfirst).1 n
        have hflat : (bk :: bks).flatMap Prod.snd = bk.2 ++ bks.flatMap Prod.snd := by
          simp
        rw [hflat, runMax_append_of_hasUri _ _ _ hu, hasUri_append, hu]
        constructor
        · intro h
          simp only [doBuckets, doBucket, List.mem_append] at h
          rcases h with h | h
          · have hh := h3.mp h
            exact ⟨by simp, hh.2.1, hh.2.2⟩
          · exact absurd h hrest
        · intro h
          simp only [doBuckets, doBucket, List.mem_append]
          exact Or.inl (h3.mpr ⟨hu, h.2.1, h.2.2⟩)
      · obtain ⟨h1, h2, h3, h4⟩ := stepLines_no_uri camId bk.1 bk.2 g b0
          (Bool.eq_false_iff.mpr hu)
        have hfirst : (stepLines camId bk.1 g b0 bk.2).1.first = true := by rw [h2, hg]
        have hih := ih (stepLines camId bk.1 g b0 bk.2).1 hfirst n
        rw [h4] at hih
        have hflat : (bk :: bks).flatMap Prod.snd = bk.2 ++ bks.flatMap Prod.snd := by
          simp
        rw [hflat, runMax_append_of_no_uri _ _ _ (Bool.eq_false_iff.mpr hu),
          hasUri_append, Bool.eq_false_iff.mpr hu]
        simp only [Bool.false_or]
        simp only [doBuckets, doBucket, h1, List.nil_append]
        exact hih

/- Shape predicates for the stitched output: a run of emitted segments
   (each an EXTINF line immediately followed by its uri line), and an
   optional program-date-time line. -/
inductive SegBlocks : List OutLine → Prop where
  | nil : SegBlocks []
  | cons (d : ℚ) (n : ℕ) (u : String) (rest : List OutLine) :
      SegBlocks rest → SegBlocks (OutLine.extinf d :: OutLine.seg n u :: rest)

def PdtOpt (l : List OutLine) : Prop := l = [] ∨ ∃ s, l = [OutLine.pdt s]

theorem SegBlocks.no_disc {l : List OutLine} (h : SegBlocks l) :
    OutLine.disc ∉ l := by
  induction h with
  | nil => simp
  | cons d n u rest _ ih => simp [ih]

theorem segNums_append (xs ys : List OutLine) :
    segNums (xs ++ ys) = segNums xs ++ segNums ys := by
  simp [segNums]

theorem stepLines_tail_shape (camId rel : String) :
    ∀ (ls : List PlLine) (g : GState) (b : BState),
      g.first = false → b.minuteFirst = false →
      SegBlocks (stepLines camId rel g b ls).2.2 ∧
      segNums (stepLines camId rel g b ls).2.2 =
        List.range' g.mediaSeq (uriCount ls) ∧
      (stepLines camId rel g b ls).1.mediaSeq = g.mediaSeq + uriCount ls := by
  intro ls
  induction ls with
  | nil =>
      intro g b hg hb
      exact ⟨SegBlocks.nil, by simp [stepLines, segNums, uriCount], by
        simp [stepLines, uriCount]⟩
  | cons l ls ih =>
      intro g b hg hb
      by_cases hu : isUriLine l
      · cases l with
        | uri u =>
            have hout : (stepLine camId rel g b (PlLine.uri u)).2.2 =
                [OutLine.extinf (b.lastDur.getD 2),
                 OutLine.seg g.mediaSeq (segUri camId rel u)] := by
              rw [stepLine_uri_out_first_false camId rel g b u hg, if_neg (by simp [hb])]
              simp
            have hg1 : (stepLine camId rel g b (PlLine.uri u)).1.first = false := by
              simp [stepLine]
            have hb1 : (stepLine camId rel g b (PlLine.uri u)).2.1.minuteFirst = false := by
              simp [stepLine]
            have hm1 : (stepLine camId rel g b (PlLine.uri u)).1.mediaSeq =
                g.mediaSeq + 1 := by
              simp [stepLine]
            obtain ⟨ihS, ihN, ihM⟩ := ih (stepLine camId rel g b (PlLine.uri u)).1
              (stepLine camId rel g b (PlLine.uri u)).2.1 hg1 hb1
            have hcnt : uriCount (PlLine.uri u :: ls) = uriCount ls + 1 := by
              simp [uriCount, List.countP_cons, isUriLine]
            refine ⟨?_, ?_, ?_⟩
            · simp only [stepLines, hout]
              exact SegBlocks.cons _ _ _ _ ihS
            · simp only [stepLines, hcnt]
              rw [hout, segNums_append, ihN, hm1]
              rw [show segNums [OutLine.extinf (b.lastDur.getD 2),
                    OutLine.seg g.mediaSeq (segUri camId rel u)] = [g.mediaSeq] from by
                  simp [segNums, segNumOf]]
              rw [List.range'_succ g.mediaSeq (uriCount ls) 1]
              rfl
            · simp only [stepLines]
              rw [ihM, hm1, hcnt]
              omega
        | targetDuration v => simp [isUriLine] at hu
        | programDateTime v => simp [isUriLine] at hu
        | extinf v => simp [isUriLine] at hu
        | comment => simp [isUriLine] at hu
      · have hlu : isUriLine l = false := by simpa using hu
        have hfacts := stepLine_not_uri camId rel g b l hlu
        have hg1 : (stepLine camId rel g b l).1.first = false := by
          rw [hfacts.2.1, hg]
        have hb1 : (stepLine camId rel g b l).2.1.minuteFirst = false := by
          rw [hfacts.2.2.2.2, hb]
        obtain ⟨ihS, ihN, ihM⟩ := ih (stepLine camId rel g b l).1
          (stepLine camId rel g b l).2.1 hg1 hb1
        have hcnt : uriCount (l :: ls) = uriCount ls := by
          simp [uriCount, List.countP_cons, hlu]
        refine ⟨?_, ?_, ?_⟩
        · simpa only [stepLines, hfacts.1, List.nil_append] using ihS
        · simp only [stepLines, hfacts.1, List.nil_append, hcnt]
          rw [ihN, hfacts.2.2.1]
        · simp only [stepLines, hcnt]
          rw [ihM, hfacts.2.2.1]

theorem stepLines_later_bucket (camId rel : String) :
    ∀ (ls : List PlLine) (g : GState) (b : BState),
      g.first = false → b.minuteFirst = true → hasUri ls = true →
      (∃ p blocks, (stepLines camId rel g b ls).2.2 =
          OutLine.disc :: (p ++ blocks) ∧
        PdtOpt p ∧ SegBlocks blocks ∧ blocks ≠ []) ∧
      segNums (stepLines camId rel g b ls).2.2 =
        List.range' g.mediaSeq (uriCount ls) ∧
      (stepLines camId rel g b ls).1.mediaSeq = g.mediaSeq + uriCount ls := by
  intro ls
  induction ls with
  | nil => intro g b hg hb hu; simp [hasUri] at hu
  | cons l ls ih =>
      intro g b hg hb hu
      by_cases hul : isUriLine l
      · cases l with
        | uri u =>
            have hout : (stepLine camId rel g b (PlLine.uri u)).2.2 =
                OutLine.disc ::
                  ((if truthy b.curPdt then [OutLine.pdt (b.curPdt.getD "")] else []) ++
                   [OutLine.extinf (b.lastDur.getD 2),
                    OutLine.seg g.mediaSeq (segUri camId rel u)]) := by
              rw [stepLine_uri_out_first_false camId rel g b u hg, if_pos hb]
              simp
            have hg1 : (stepLine camId rel g b (PlLine.uri u)).1.first = false := by
              simp [stepLine]
            have hb1 : (stepLine camId rel g b (PlLine.uri u)).2.1.minuteFirst = false := by
              simp [stepLine]
            have hm1 : (stepLine camId rel g b (PlLine.uri u)).1.mediaSeq =
                g.mediaSeq + 1 := by
              simp [stepLine]
            obtain ⟨ihS, ihN, ihM⟩ := stepLines_tail_shape camId rel ls
              (stepLine camId rel g b (PlLine.uri u)).1
              (stepLine camId rel g b (PlLine.uri u)).2.1 hg1 hb1
            have hcnt : uriCount (PlLine.uri u :: ls) = uriCount ls + 1 := by
              simp [uriCount, List.countP_cons, isUriLine]
            refine ⟨?_, ?_, ?_⟩
            · refine ⟨if truthy b.curPdt then [OutLine.pdt (b.curPdt.getD "")] else [],
                OutLine.extinf (b.lastDur.getD 2) ::
                  OutLine.seg g.mediaSeq (segUri camId rel u) ::
                  (stepLines camId rel (stepLine camId rel g b (PlLine.uri u)).1
                    (stepLine camId rel g b (PlLine.uri u)).2.1 ls).2.2, ?_, ?_, ?_, ?_⟩
              · simp only [stepLines, hout]
                simp
              · by_cases ht : truthy b.curPdt
                · exact Or.inr ⟨_, by rw [if_pos ht]⟩
                · exact Or.inl (by rw [if_neg ht])
              · exact SegBlocks.cons _ _ _ _ ihS
              · simp
            · have hseg1 : segNums (OutLine.disc ::
                  ((if truthy b.curPdt then [OutLine.pdt (b.curPdt.getD "")] else []) ++
                   [OutLine.extinf (b.lastDur.getD 2),
                    OutLine.seg g.mediaSeq (segUri camId rel u)])) = [g.mediaSeq] := by
                by_cases ht : truthy b.curPdt <;> simp [ht, segNums, segNumOf]
              simp only [stepLines, hcnt]
              rw [hout, segNums_append, hseg1, ihN, hm1,
                List.range'_succ g.mediaSeq (uriCount ls) 1]
              rfl
            · simp only [stepLines, hcnt]
              rw [ihM, hm1]
              omega
        | targetDuration v => simp [isUriLine] at hul
        | programDateTime v => simp [isUriLine] at hul
        | extinf v => simp [isUriLine] at hul
        | comment => simp [isUriLine] at hul
      · have hlu : isUriLine l = false := by simpa using hul
        have hlsu : hasUri ls = true := by
          rw [hasUri, List.any_cons, hlu] at hu
          simpa [hasUri] using hu
        have hfacts := stepLine_not_uri camId rel g b l hlu
        have hg1 : (stepLine camId rel g b l).1.first = false := by
          rw [hfacts.2.1, hg]
        have hb1 : (stepLine camId rel g b l).2.1.minuteFirst = true := by
          rw [hfacts.2.2.2.2, hb]
        obtain ⟨ihS, ihN, ihM⟩ := ih (stepLine camId rel g b l).1
          (stepLine camId rel g b l).2.1 hg1 hb1 hlsu
        have hcnt : uriCount (l :: ls) = uriCount ls := by
          simp [uriCount, List.countP_cons, hlu]
        refine ⟨?_, ?_, ?_⟩
        · simpa only [stepLines, hfacts.1, List.nil_append] using ihS
        · simp only [stepLines, hfacts.1, List.nil_append, hcnt]
          rw [ihN, hfacts.2.2.1]
        · simp only [stepLines, hcnt]
          rw [ihM, hfacts.2.2.1]

theorem stepLines_first_bucket (camId rel : String) :
    ∀ (ls : List PlLine) (g : GState) (b : BState),
      g.first = true → hasUri ls = true →
      OutLine.disc ∉ (stepLines camId rel g b ls).2.2 ∧
      segNums (stepLines camId rel g b ls).2.2 =
        List.range' g.mediaSeq (uriCount ls) ∧
      (stepLines camId rel g b ls).1.mediaSeq = g.mediaSeq + uriCount ls := by
  intro ls
  induction ls with
  | nil => intro g b hg hu; simp [hasUri] at hu
  | cons l ls ih =>
      intro g b hg hu
      by_cases hul : isUriLine l
      · cases l with
        | uri u =>
            have hout : (stepLine camId rel g b (PlLine.uri u)).2.2 =
                ([OutLine.mediaSeq g.mediaSeq] ++
                  (if g.maxTarget ≠ 0 then [OutLine.targetDur ⌈g.maxTarget⌉] else []) ++
                  (if truthy g.firstPdt then [OutLine.pdt (g.firstPdt.getD "")] else [])) ++
                [OutLine.extinf (b.lastDur.getD 2),
                 OutLine.seg g.mediaSeq (segUri camId rel u)] := by
              simp [stepLine, hg]
            have hg1 : (stepLine camId rel g b (PlLine.uri u)).1.first = false := by
              simp [stepLine]
            have hb1 : (stepLine camId rel g b (PlLine.uri u)).2.1.minuteFirst = false := by
              simp [stepLine]
            have hm1 : (stepLine camId rel g b (PlLine.uri u)).1.mediaSeq =
                g.mediaSeq + 1 := by
              simp [stepLine]
            obtain ⟨ihS, ihN, ihM⟩ := stepLines_tail_shape camId rel ls
              (stepLine camId rel g b (PlLine.uri u)).1
              (stepLine camId rel g b (PlLine.uri u)).2.1 hg1 hb1
            have hcnt : uriCount (PlLine.uri u :: ls) = uriCount ls + 1 := by
              simp [uriCount, List.countP_cons, isUriLine]
            refine ⟨?_, ?_, ?_⟩
            · have hnd1 : OutLine.disc ∉
                  (if g.maxTarget ≠ 0 then [OutLine.targetDur ⌈g.maxTarget⌉] else []) := by
                split <;> simp
              have hnd2 : OutLine.disc ∉
                  (if truthy g.firstPdt then [OutLine.pdt (g.firstPdt.getD "")] else []) := by
                split <;> simp
              simp only [stepLines]
              rw [hout]
              intro h
              rw [List.mem_append] at h
              rcases h with h | h
              · rw [List.mem_append] at h
                rcases h with h | h
                · rw [List.mem_append] at h
                  rcases h with h | h
                  · rw [List.mem_append] at h
                    rcases h with h | h
                    · simp at h
                    · exact hnd1 h
                  · exact hnd2 h
                · simp at h
              · exact ihS.no_disc h
            · have hseg1 : segNums (([OutLine.mediaSeq g.mediaSeq] ++
                  (if g.maxTarget ≠ 0 then [OutLine.targetDur ⌈g.maxTarget⌉] else []) ++
                  (if truthy g.firstPdt then [OutLine.pdt (g.firstPdt.getD "")] else [])) ++
                  [OutLine.extinf (b.lastDur.getD 2),
                   OutLine.seg g.mediaSeq (segUri camId rel u)]) = [g.mediaSeq] := by
                by_cases hmt : g.maxTarget ≠ 0 <;> by_cases hp : truthy g.firstPdt <;>
                  simp [hmt, hp, segNums, segNumOf]
              simp only [stepLines, hcnt]
              rw [hout, segNums_append, hseg1, ihN, hm1,
                List.range'_succ g.mediaSeq (uriCount ls) 1]
              rfl
            · simp only [stepLines, hcnt]
              rw [ihM, hm1]
              omega
        | targetDuration v => simp [isUriLine] at hul
        | programDateTime v => simp [isUriLine] at hul
        | extinf v => simp [isUriLine] at hul
        | comment => simp [isUriLine] at hul
      · have hlu : isUriLine l = false := by simpa using hul
        have hlsu : hasUri ls = true := by
          rw [hasUri, List.any_cons, hlu] at hu
          simpa [hasUri] using hu
        have hfacts := stepLine_not_uri camId rel g b l hlu
        have hg1 : (stepLine camId rel g b l).1.first = true := by
          rw [hfacts.2.1, hg]
        obtain ⟨ihS, ihN, ihM⟩ := ih (stepLine camId rel g b l).1
          (stepLine camId rel g b l).2.1 hg1 hlsu
        have hcnt : uriCount (l :: ls) = uriCount ls := by
          simp [uriCount, List.countP_cons, hlu]
        refine ⟨?_, ?_, ?_⟩
        · simpa only [stepLines, hfacts.1, List.nil_append] using ihS
        · simp only [stepLines, hfacts.1, List.nil_append, hcnt]
          rw [ihN, hfacts.2.2.1]
        · simp only [stepLines, hcnt]
          rw [ihM, hfacts.2.2.1]

theorem doBuckets_later (camId : String) :
    ∀ (bs : List (String × List PlLine)) (g : GState),
      g.first = false → (∀ bk ∈ bs, hasUri bk.2 = true) →
      ∃ later : List (List OutLine),
        (doBuckets camId g bs).2 = later.flatten ∧
        later.length = bs.length ∧
        (∀ l ∈ later, ∃ p blocks, l = OutLine.disc :: (p ++ blocks) ∧
          PdtOpt p ∧ SegBlocks blocks ∧ blocks ≠ []) ∧
        segNums (doBuckets camId g bs).2 =
          List.range' g.mediaSeq ((bs.map (fun bk => uriCount bk.2)).sum) ∧
        (doBuckets camId g bs).1.mediaSeq =
          g.mediaSeq + (bs.map (fun bk => uriCount bk.2)).sum := by
  intro bs
  induction bs with
  | nil =>
      intro g hg hbs
      exact ⟨[], rfl, rfl, by simp, by simp [doBuckets, segNums], by simp [doBuckets]⟩
  | cons bk bks ih =>
      intro g hg hbs
      obtain ⟨⟨p, blocks, hshape, hp, hsb, hbne⟩, hnums, hmed⟩ :=
        stepLines_later_bucket camId bk.1 bk.2 g b0 hg rfl (hbs bk (by simp))
      have hfirst : (stepLines camId bk.1 g b0 bk.2).1.first = false :=
        stepLines_first_false_stays camId bk.1 bk.2 g b0 hg
      obtain ⟨later, ihflat, ihlen, ihshape, ihnums, ihmed⟩ :=
        ih (stepLines camId bk.1 g b0 bk.2).1 hfirst
          (fun d hd => hbs d (by simp [hd]))
      refine ⟨(stepLines camId bk.1 g b0 bk.2).2.2 :: later, ?_, ?_, ?_, ?_, ?_⟩
      · simp only [doBuckets, doBucket, List.flatten_cons]
        rw [ihflat]
      · simp [ihlen]
      · intro l hl
        rcases List.mem_cons.mp hl with rfl | hl2
        · exact ⟨p, blocks, hshape, hp, hsb, hbne⟩
        · exact ihshape l hl2
      · simp only [doBuckets, doBucket]
        rw [segNums_append, hnums, ihnums, hmed, List.map_cons, List.sum_cons,
          List.range'_append_1 g.mediaSeq (uriCount bk.2)
            ((bks.map (fun bk => uriCount bk.2)).sum)]
        rw [Nat.add_comm (uriCount bk.2) ((bks.map (fun bk => uriCount bk.2)).sum)]
      · simp only [doBuckets, doBucket]
        rw [ihmed, hmed, List.map_cons, List.sum_cons]
        omega

/-- C7 (amended): for a stitch of two or more buckets, each of which
contributes at least one segment, a discontinuity marker stands
immediately before the first segment of every bucket after the first
(with that segment's program-date-time between them when known) and
before no other segment, and the per-segment media-sequence counter runs
0, 1, 2, ... across all emitted segments. -/
theorem stitch_disc_and_sequence (camId : String)
    (bs : List (String × List PlLine))
    (hne : ∀ bk ∈ bs, hasUri bk.2 = true)
    (hlen : 2 ≤ bs.length) :
    ∃ (head0 : List OutLine) (later : List (List OutLine)),
      stitch camId bs =
        OutLine.header :: OutLine.version 3 ::
          (head0 ++ later.flatten ++ [OutLine.endlist]) ∧
      OutLine.disc ∉ head0 ∧
      later.length = bs.length - 1 ∧
      (∀ l ∈ later, ∃ p blocks, l = OutLine.disc :: (p ++ blocks) ∧
        PdtOpt p ∧ SegBlocks blocks ∧ blocks ≠ []) ∧
      segNums (stitch camId bs) =
        List.range ((bs.map (fun bk => uriCount bk.2)).sum) := by
  cases bs with
  | nil => simp at hlen
  | cons bk bks =>
      obtain ⟨hdisc0, hnums0, hmed0⟩ :=
        stepLines_first_bucket camId bk.1 bk.2 g0 b0 rfl (hne bk (by simp))
      have hfirst : (stepLines camId bk.1 g0 b0 bk.2).1.first = false := by
        rw [stepLines_first_cleared camId bk.1 bk.2 g0 b0 rfl, hne bk (by simp)]
        rfl
      obtain ⟨later, ihflat, ihlen, ihshape, ihnums, ihmed⟩ :=
        doBuckets_later camId bks (stepLines camId bk.1 g0 b0 bk.2).1 hfirst
          (fun d hd => hne d (by simp [hd]))
      refine ⟨(stepLines camId bk.1 g0 b0 bk.2).2.2, later, ?_, hdisc0, ?_,
        ihshape, ?_⟩
      · simp only [stitch, doBuckets, doBucket]
        rw [ihflat]
        simp
      · simp [ihlen]
      · simp only [stitch, doBuckets, doBucket]
        rw [segNums_append, segNums_append]
        rw [show segNums [OutLine.header, OutLine.version 3] = [] from rfl,
          show segNums [OutLine.endlist] = [] from rfl]
        rw [segNums_append, hnums0, ihnums, hmed0]
        simp only [List.nil_append, List.append_nil]
        rw [show g0.mediaSeq = 0 from rfl, Nat.zero_add]
        rw [show List.range' (uriCount bk.2)
              ((List.map (fun bk => uriCount bk.2) bks).sum) =
            List.range' (0 + uriCount bk.2)
              ((List.map (fun bk => uriCount bk.2) bks).sum) from by
          rw [Nat.zero_add]]
        rw [List.range'_append_1 0 (uriCount bk.2)
          ((List.map (fun bk => uriCount bk.2) bks).sum)]
        rw [List.map_cons, List.sum_cons, List.range_eq_range',
          Nat.add_comm ((List.map (fun bk => uriCount bk.2) bks).sum) (uriCount bk.2)]

/- C7 witness buckets: the spec's example, two consecutive sealed minute
   buckets with 3 segments of 2 s each. -/
def c7W1 : String × List PlLine :=
  ("r1", [PlLine.extinf (some 2), PlLine.uri "a.ts", PlLine.extinf (some 2),
    PlLine.uri "b.ts", PlLine.extinf (some 2), PlLine.uri "c.ts"])

def c7W2 : String × List PlLine :=
  ("r2", [PlLine.extinf (some 2), PlLine.uri "d.ts", PlLine.extinf (some 2),
    PlLine.uri "e.ts", PlLine.extinf (some 2), PlLine.uri "f.ts"])

theorem stitch_disc_and_sequence_witness :
    ∃ (head0 : List OutLine) (later : List (List OutLine)),
      stitch "cam" [c7W1, c7W2] =
        OutLine.header :: OutLine.version 3 ::
          (head0 ++ later.flatten ++ [OutLine.endlist]) ∧
      OutLine.disc ∉ head0 ∧
      later.length = [c7W1, c7W2].length - 1 ∧
      (∀ l ∈ later, ∃ p blocks, l = OutLine.disc :: (p ++ blocks) ∧
        PdtOpt p ∧ SegBlocks blocks ∧ blocks ≠ []) ∧
      segNums (stitch "cam" [c7W1, c7W2]) =
        List.range (([c7W1, c7W2].map (fun bk => uriCount bk.2)).sum) :=
  stitch_disc_and_sequence "cam" [c7W1, c7W2]
    (by
      intro bk hbk
      rcases List.mem_cons.mp hbk with rfl | hbk2
      · simp [c7W1, hasUri, isUriLine]
      · rcases List.mem_cons.mp hbk2 with rfl | hbk3
        · simp [c7W2, hasUri, isUriLine]
        · simp at hbk3)
    (by simp)

/- C7 counterexample buckets: the first included bucket has a manifest
   with no segment uri yet (only a header line), the second has one
   segment. -/
def c7B1 : String × List PlLine := ("r1", [PlLine.targetDuration (some 2)])

def c7B2 : String × List PlLine :=
  ("r2", [PlLine.extinf (some 2), PlLine.uri "a.ts"])

/-- C7 counterexample: a stitched playlist built from two buckets in which
the first contributes no segment contains no discontinuity marker at all,
although the second bucket is a bucket after the first and its first
segment is emitted. -/
theorem stitch_disc_missing_empty_first_bucket :
    stitch "cam" [c7B1, c7B2] =
      [OutLine.header, OutLine.version 3, OutLine.mediaSeq 0,
       OutLine.targetDur 2, OutLine.extinf 2,
       OutLine.seg 0 (segUri "cam" "r2" "a.ts"), OutLine.endlist] ∧
    OutLine.disc ∉ stitch "cam" [c7B1, c7B2] ∧
    uriCount c7B2.2 = 1 := by
  have h2 : (⌈(2 : ℚ)⌉ : ℤ) = 2 := by norm_num
  have hst : stitch "cam" [c7B1, c7B2] =
      [OutLine.header, OutLine.version 3, OutLine.mediaSeq 0,
       OutLine.targetDur 2, OutLine.extinf 2,
       OutLine.seg 0 (segUri "cam" "r2" "a.ts"), OutLine.endlist] := by
    norm_num [stitch, doBuckets, doBucket, stepLines, stepLine, c7B1, c7B2,
      g0, b0, truthy, h2]
  refine ⟨hst, ?_, by simp [c7B2, uriCount, List.countP_cons, isUriLine]⟩
  rw [hst]
  simp

/-- C2 (amended): an EXT-X-TARGETDURATION line appears in the stitched
playlist exactly when some segment is emitted and a duration (TARGETDURATION
header or EXTINF value) was observed strictly before the first emitted
segment in the concatenated manifests, and its value is the ceiling of the
maximum duration observed up to that point — durations observed later, in
particular in buckets after the one containing the first segment, do not
affect it. -/
theorem stitch_targetduration_characterisation (camId : String)
    (bs : List (String × List PlLine)) (n : ℤ) :
    OutLine.targetDur n ∈ stitch camId bs ↔
      hasUri (bs.flatMap Prod.snd) = true ∧
      runMax 0 (bs.flatMap Prod.snd) ≠ 0 ∧
      n = ⌈runMax 0 (bs.flatMap Prod.snd)⌉ := by
  have h := doBuckets_targetDur camId bs g0 rfl n
  rw [show g0.maxTarget = 0 from rfl] at h
  rw [← h]
  simp [stitch]

end Stitch

end Simpleye
